import Mathlib

set_option autoImplicit false

/-!
Shallow embedding of the clip4llm configuration engine, aggregation step and
pattern matcher, with theorems checking the natural-language specification
against the code.

Source of truth: `config.go` (Config, ConfigLayer, ConfigStack, NewConfigStack,
PushIfExists, Pop, GetEffectiveConfig, mergeConfig, loadConfigFromFile),
`main.go` (matchesAnyPatternWithPath, parseCommaSeparated, the filtering
decision and the 1 MiB aggregate ceiling), and Go's `path/filepath.Match`
(the glob dialect the matcher delegates to).
-/

namespace Clip4llm

/-- Config mirrors the Go struct: delimiter, max size in KB, no-recursive
flag and the include/exclude pattern lists.  Go's `int` is modelled as `Int`
(the parser can produce negative values), slices as lists. -/
structure Config where
  Delimiter : String
  MaxSizeKB : Int
  NoRecursive : Bool
  Include : List String
  Exclude : List String
deriving Repr, DecidableEq

/-- The zero value of the Go struct `Config{}`: every field at its
unset/empty sentinel. -/
def zeroConfig : Config :=
  { Delimiter := "", MaxSizeKB := 0, NoRecursive := false, Include := [], Exclude := [] }

/-- Hard-coded defaults used by `GetEffectiveConfig` in config.go. -/
def defaultConfig : Config :=
  { Delimiter := "```", MaxSizeKB := 32, NoRecursive := false, Include := [], Exclude := [] }

/-- mergeConfig from config.go.  The Go receiver mutates `target` in place;
here the updated target is returned.  `source` is a `*Config`, so `none`
models the nil pointer (the early `if source == nil` return). -/
def mergeConfig (target : Config) (source : Option Config) : Config :=
  match source with
  | none => target
  | some source =>
    let t1 := if source.Delimiter ≠ "" then { target with Delimiter := source.Delimiter } else target
    let t2 := if source.MaxSizeKB > 0 then { t1 with MaxSizeKB := source.MaxSizeKB } else t1
    let t3 := if source.NoRecursive then { t2 with NoRecursive := true } else t2
    let t4 := if source.Include.length > 0 then { t3 with Include := t3.Include ++ source.Include } else t3
    let t5 := if source.Exclude.length > 0 then { t4 with Exclude := t4.Exclude ++ source.Exclude } else t4
    t5

/-- Elementwise merge of two layers, written from the spec's words ("a single
layer that is the elementwise merge of L1 then L2, for scalar fields
(last-set-wins) and list fields (concatenation in order)"), to be compared
with sequential `mergeConfig` application. -/
def specElementwiseMerge (l1 l2 : Config) : Config :=
  { Delimiter := if l2.Delimiter ≠ "" then l2.Delimiter else l1.Delimiter
    MaxSizeKB := if l2.MaxSizeKB > 0 then l2.MaxSizeKB else l1.MaxSizeKB
    NoRecursive := l1.NoRecursive || l2.NoRecursive
    Include := l1.Include ++ l2.Include
    Exclude := l1.Exclude ++ l2.Exclude }

/-! Go `strings` helpers used by the parser, modelled character-by-character
so that all definitions evaluate inside the kernel.  Only the single-character
separators actually used by the code ("=", ",", "./", "#") are needed. -/

/-- Go `unicode.IsSpace` restricted to the Latin-1 range (the characters a
configuration line can realistically carry). -/
def goIsSpace (c : Char) : Bool :=
  c = ' ' || c = '\t' || c = '\n' || c = '\u000B' || c = '\u000C' || c = '\r' ||
    c = '\u0085' || c = '\u00A0'

/-- Go `strings.TrimSpace`: drop leading and trailing white space. -/
def goTrim (s : String) : String :=
  ⟨((s.data.dropWhile goIsSpace).reverse.dropWhile goIsSpace).reverse⟩

/-- Go `strings.Split` on a one-character separator ("" splits to [""]). -/
def splitChar (sep : Char) : List Char → List (List Char)
  | [] => [[]]
  | c :: rest =>
    if c = sep then [] :: splitChar sep rest
    else
      match splitChar sep rest with
      | [] => [[c]]
      | h :: t => (c :: h) :: t

/-- Go `strings.SplitN(s, sep, 2)` for a one-character separator: `none` when
the separator is absent (Go returns a one-element slice, which the parser
skips), otherwise the part before the first separator and everything after. -/
def splitFirst (sep : Char) : List Char → Option (List Char × List Char)
  | [] => none
  | c :: rest =>
    if c = sep then some ([], rest)
    else
      match splitFirst sep rest with
      | none => none
      | some (a, b) => some (c :: a, b)

/-- Go `strings.HasPrefix(s, string(c))` for a one-character prefix. -/
def headIs (c : Char) (s : String) : Bool :=
  match s.data with
  | [] => false
  | d :: _ => d = c

/-- Go `strings.TrimPrefix(s, "./")`: strip one leading "./" if present. -/
def trimDotSlash (s : String) : String :=
  match s.data with
  | '.' :: '/' :: rest => ⟨rest⟩
  | _ => s

/-- Decimal digits to a number; `none` when empty or a non-digit appears. -/
def digitsToNat (cs : List Char) : Option Nat :=
  if cs.isEmpty then none
  else
    cs.foldl
      (fun acc c =>
        match acc with
        | none => none
        | some n => if c.isDigit then some (n * 10 + (c.toNat - 48)) else none)
      (some 0)

/-- Go `strconv.Atoi`: optional sign then decimal digits, `none` on any
malformed input.  Overflow of Go's `int` is not modelled. -/
def atoi (s : String) : Option Int :=
  match s.data with
  | '+' :: rest => (digitsToNat rest).map (fun n => (n : Int))
  | '-' :: rest => (digitsToNat rest).map (fun n => -(n : Int))
  | cs => (digitsToNat cs).map (fun n => (n : Int))

/-- parseCommaSeparated from main.go: split on commas, trim each part, drop
empty parts, preserving order. -/
def parseCommaSeparated (input : String) : List String :=
  (((splitChar ',' input.data).map (fun l => goTrim ⟨l⟩)).filter (fun s => s ≠ ""))

/-- One iteration of the scanner loop in loadConfigFromFile (config.go):
trim the line, skip blanks and #-comments, split on the first "=", trim key
and value, and apply the recognized key's update to the config being built.
Unrecognized keys and non-numeric max-size values are ignored. -/
def applyLine (config : Config) (rawLine : String) : Config :=
  let line := goTrim rawLine
  if line = "" || headIs '#' line then config
  else
    match splitFirst '=' line.data with
    | none => config
    | some (k, v) =>
      let key := goTrim ⟨k⟩
      let value := goTrim ⟨v⟩
      if key = "delimiter" then { config with Delimiter := value }
      else if key = "max-size" then
        match atoi value with
        | some parsedVal => { config with MaxSizeKB := parsedVal }
        | none => config
      else if key = "no-recursive" then { config with NoRecursive := value == "true" }
      else if key = "include" then { config with Include := parseCommaSeparated value }
      else if key = "exclude" then { config with Exclude := parseCommaSeparated value }
      else config

/-- The scanner loop of loadConfigFromFile folded over the delivered lines,
starting from the Go zero value `&Config{}`. -/
def parseLines (lines : List String) : Config :=
  lines.foldl applyLine zeroConfig

/-- Outcome of opening and scanning one configuration source: the file does
not exist, opening an existing file failed (e.g. permission denied), or the
file was opened and the scanner delivered `lines` before stopping —
`scanErr` records whether it stopped because of a read error part-way
through rather than end of input. -/
inductive FileReadResult where
  | notExist
  | openErr
  | readLines (lines : List String) (scanErr : Bool)
deriving Repr, DecidableEq

/-- loadConfigFromFile from config.go over an abstract read outcome.  A
missing file and an open failure both return nil (`none`); once the file is
open the parsed config is returned even when the scanner stopped with a read
error part-way through (the error is only logged under verbose). -/
def loadConfigFromFile : FileReadResult → Option Config
  | .notExist => none
  | .openErr => none
  | .readLines lines _ => some (parseLines lines)

/-! The ConfigStack of config.go.  The file system is abstracted as a map
from a directory to the read outcome of the `.clip4llm` file joined to it
(`filepath.Join(dir, ".clip4llm")` is injective over directories, so keying
by directory is faithful). -/

/-- ConfigLayer from config.go.  A layer is only ever created from a non-nil
parsed config, so the `Config` field is not optional here. -/
structure ConfigLayer where
  Directory : String
  Config : Config
deriving Repr, DecidableEq

/-- ConfigStack from config.go: active layers (top = last), the
directory-keyed cache (`nil` cached as `none`: negative result), and the
root/home directories recorded at construction.  The `verbose` flag only
drives logging and is not modelled. -/
structure ConfigStack where
  layers : List ConfigLayer
  cache : List (String × Option Config)
  rootDir : String
  homeDir : String
deriving Repr, DecidableEq

/-- Go map lookup `cs.cache[dir]` over the association list. -/
def lookupCache (cache : List (String × Option Config)) (dir : String) :
    Option (Option Config) :=
  (cache.find? (fun e => e.1 = dir)).map (fun e => e.2)

/-- NewConfigStack from config.go.  `fs` is the abstract file system;
`homeRes` is the result of `os.UserHomeDir()` (`none`: resolution failed, in
which case Go leaves the zero-value `homeDir` of `""`). -/
def NewConfigStack (fs : String → FileReadResult) (rootDir : String)
    (homeRes : Option String) : ConfigStack :=
  let cs : ConfigStack := { layers := [], cache := [], rootDir := rootDir, homeDir := "" }
  let cs :=
    match homeRes with
    | none => cs
    | some homeDir =>
      let cs := { cs with homeDir := homeDir }
      match loadConfigFromFile (fs homeDir) with
      | some cfg => { cs with layers := cs.layers ++ [⟨homeDir, cfg⟩] }
      | none => cs
  if rootDir ≠ cs.homeDir then
    match loadConfigFromFile (fs rootDir) with
    | some cfg => { cs with layers := cs.layers ++ [⟨rootDir, cfg⟩] }
    | none => cs
  else cs

/-- Result of one PushIfExists call: the updated stack, the returned Bool,
and how many times the call went to the file system (the calls to
`cs.loadConfigFromFile`, each of which stats/opens the disk). -/
structure PushResult where
  stack : ConfigStack
  pushed : Bool
  diskProbes : Nat
deriving Repr, DecidableEq

/-- PushIfExists from config.go: refuse root and home, consult the cache
(positive entry: re-push the shared parsed config with no disk access;
negative entry: return false with no disk access), and on a cache miss load
from disk, record the outcome in the cache even when nil, and push on
success. -/
def PushIfExists (fs : String → FileReadResult) (cs : ConfigStack) (dir : String) :
    PushResult :=
  if dir = cs.rootDir ∨ dir = cs.homeDir then ⟨cs, false, 0⟩
  else
    match lookupCache cs.cache dir with
    | some cached =>
      match cached with
      | some cfg => ⟨{ cs with layers := cs.layers ++ [⟨dir, cfg⟩] }, true, 0⟩
      | none => ⟨cs, false, 0⟩
    | none =>
      let cfg := loadConfigFromFile (fs dir)
      let cs1 := { cs with cache := cs.cache ++ [(dir, cfg)] }
      match cfg with
      | some c => ⟨{ cs1 with layers := cs1.layers ++ [⟨dir, c⟩] }, true, 1⟩
      | none => ⟨cs1, false, 1⟩

/-- Pop from config.go: remove the top layer only when its directory equals
the argument; otherwise (or on an empty stack) a silent no-op. -/
def Pop (cs : ConfigStack) (dir : String) : ConfigStack :=
  match cs.layers.getLast? with
  | none => cs
  | some top =>
    if top.Directory = dir then { cs with layers := cs.layers.dropLast } else cs

/-- GetEffectiveConfig from config.go: fold every active layer, oldest
first, onto the hard-coded defaults. -/
def GetEffectiveConfig (cs : ConfigStack) : Config :=
  cs.layers.foldl (fun effective layer => mergeConfig effective (some layer.Config))
    defaultConfig

/-- The stacks reachable from a given starting stack by the operations the
traversal driver performs: PushIfExists with any directory, and Pop with a
directory other than the recorded root and home (the driver only pops
directories for which PushIfExists returned true, and PushIfExists refuses
root and home). -/
inductive ReachableFrom (fs : String → FileReadResult) (cs0 : ConfigStack) :
    ConfigStack → Prop
  | refl : ReachableFrom fs cs0 cs0
  | push (cs : ConfigStack) (dir : String) :
      ReachableFrom fs cs0 cs → ReachableFrom fs cs0 (PushIfExists fs cs dir).stack
  | pop (cs : ConfigStack) (dir : String) :
      ReachableFrom fs cs0 cs → dir ≠ cs.rootDir → dir ≠ cs.homeDir →
      ReachableFrom fs cs0 (Pop cs dir)

/-! Go `path/filepath.Match` (the glob dialect the pattern matcher
delegates to), translated at the rune level: strings are lists of
characters, `ErrBadPattern` is the `Except` error, the path separator is
'/'.  Function and variable names follow Go's match.go. -/

/-- getEsc from Go's match.go: read one (possibly backslash-escaped)
character of a character class; errors on an empty chunk, a leading '-' or
']', a trailing backslash, and when nothing follows the character (the
class is then unterminated). -/
def getEsc : List Char → Except Unit (Char × List Char)
  | [] => .error ()
  | '\\' :: [] => .error ()
  | '\\' :: r :: nchunk => if nchunk.isEmpty then .error () else .ok (r, nchunk)
  | c :: rest =>
    if c = '-' || c = ']' then .error ()
    else if rest.isEmpty then .error () else .ok (c, rest)

theorem getEsc_len {chunk nchunk : List Char} {r : Char}
    (h : getEsc chunk = .ok (r, nchunk)) : nchunk.length < chunk.length := by
  unfold getEsc at h
  split at h
  · simp at h
  · simp at h
  · split at h
    · simp at h
    · simp only [Except.ok.injEq, Prod.mk.injEq] at h
      obtain ⟨-, h2⟩ := h
      subst h2
      simp
      omega
  · split at h
    · simp at h
    · split at h
      · simp at h
      · simp only [Except.ok.injEq, Prod.mk.injEq] at h
        obtain ⟨-, h2⟩ := h
        subst h2
        simp

/-- The character-class loop of matchChunk in Go's match.go: consume
`lo`-`hi` ranges until the closing ']' (legal only after at least one
range), recording in `m` whether the rune `r` fell in any range. -/
def classLoop (r : Char) (chunk : List Char) (m : Bool) (nrange : Nat) :
    Except Unit (Bool × List Char) :=
  if chunk.head? = some ']' ∧ nrange > 0 then .ok (m, chunk.tail)
  else
    match hg : getEsc chunk with
    | .error e => .error e
    | .ok (lo, chunk1) =>
      match hd : chunk1 with
      | '-' :: chunk2 =>
        match hg2 : getEsc chunk2 with
        | .error e => .error e
        | .ok (hi, chunk3) =>
          classLoop r chunk3 (m || (lo.toNat ≤ r.toNat && r.toNat ≤ hi.toNat)) (nrange + 1)
      | _ =>
        classLoop r chunk1 (m || (lo.toNat ≤ r.toNat && r.toNat ≤ lo.toNat)) (nrange + 1)
termination_by chunk.length
decreasing_by
  all_goals
    first
    | (have hl1 := getEsc_len hg
       have hl2 := getEsc_len hg2
       subst hd
       simp only [List.length_cons] at hl1
       omega)
    | (have hl1 := getEsc_len hg
       first
       | omega
       | (rw [hd]; omega))

/-- Unfolding equation for `classLoop` with plain (non-dependent) matches,
used both for reasoning and for evaluating concrete patterns. -/
theorem classLoop_eq (r : Char) (chunk : List Char) (m : Bool) (nrange : Nat) :
    classLoop r chunk m nrange =
      if chunk.head? = some ']' ∧ nrange > 0 then .ok (m, chunk.tail)
      else
        match getEsc chunk with
        | .error e => .error e
        | .ok (lo, chunk1) =>
          match chunk1 with
          | '-' :: chunk2 =>
            match getEsc chunk2 with
            | .error e => .error e
            | .ok (hi, chunk3) =>
              classLoop r chunk3 (m || (lo.toNat ≤ r.toNat && r.toNat ≤ hi.toNat)) (nrange + 1)
          | _ =>
            classLoop r chunk1 (m || (lo.toNat ≤ r.toNat && r.toNat ≤ lo.toNat)) (nrange + 1) := by
  conv_lhs => rw [classLoop.eq_def]
  split
  · rfl
  · split
    · next e heq => simp only [heq]
    · next lo chunk1 heq =>
      simp only [heq]
      split
      · next chunk2 hgw =>
        simp only []
        split
        · next e heq2 => simp only [heq2]
        · next hi chunk3 heq2 => simp only [heq2]
      · rename_i c1 hgw hne
        rcases hx : c1 with - | ⟨cx, restx⟩
        · rfl
        · subst hx
          by_cases hcx : cx = '-'
          · subst hcx
            exact (hne restx heq rfl (heq_of_eq (proof_irrel _ heq))).elim
          · split
            · next c2 heq3 =>
              exact absurd (List.cons.inj heq3).1 hcx
            · rfl

theorem classLoop_len {r : Char} {chunk : List Char} {m : Bool} {nrange : Nat} :
    ∀ {m' : Bool} {nchunk : List Char},
      classLoop r chunk m nrange = .ok (m', nchunk) → nchunk.length ≤ chunk.length := by
  induction chunk, m, nrange using classLoop.induct (r := r) with
  | case1 chunk m nrange hcond =>
    intro m' nchunk h
    rw [classLoop_eq, if_pos hcond] at h
    simp only [Except.ok.injEq, Prod.mk.injEq] at h
    obtain ⟨-, h2⟩ := h
    subst h2
    cases chunk <;> simp
  | case2 chunk m nrange hcond e hg =>
    intro m' nchunk h
    rw [classLoop_eq, if_neg hcond, hg] at h
    simp at h
  | case3 chunk m nrange hcond lo chunk2 hg e hg2 hg' =>
    intro m' nchunk h
    rw [classLoop_eq, if_neg hcond, hg] at h
    simp only at h
    rw [hg2] at h
    simp at h
  | case4 chunk m nrange hcond lo chunk2 hg hi chunk3 hg2 hg' ih =>
    intro m' nchunk h
    rw [classLoop_eq, if_neg hcond, hg] at h
    simp only at h
    rw [hg2] at h
    simp only at h
    have h3 := ih h
    have l1 := getEsc_len hg
    have l2 := getEsc_len hg2
    simp only [List.length_cons] at l1
    omega
  | case5 chunk m nrange hcond lo chunk1 hg hg' hne ih =>
    intro m' nchunk h
    rw [classLoop_eq, if_neg hcond, hg] at h
    simp only at h
    split at h
    · rename_i c2
      exact ((hne c2 hg rfl (heq_of_eq (proof_irrel hg' hg))).elim : _)
    · have h3 := ih h
      have l1 := getEsc_len hg
      omega

/-- Split a leading '^' (class negation) off the chunk, as matchChunk does
right after consuming '['. -/
def caretSplit : List Char → Bool × List Char
  | '^' :: rest => (true, rest)
  | l => (false, l)

theorem caretSplit_len (l : List Char) : (caretSplit l).2.length ≤ l.length := by
  match l with
  | [] => simp [caretSplit]
  | c :: rest =>
    by_cases h : c = '^'
    · subst h; simp [caretSplit]
    · have : caretSplit (c :: rest) = (false, c :: rest) := by
        unfold caretSplit
        split <;> simp_all
      simp [this]

/-- matchChunk from Go's match.go: match the chunk against the start of
`s₀`, one pattern element per iteration.  After a mismatch (`failed`), the
loop keeps consuming the chunk, checking only well-formedness, and no
longer consumes `s₀`.  Returns the unmatched remainder of `s₀` and whether
the chunk matched; errors model ErrBadPattern. -/
def matchChunkLoop : List Char → List Char → Bool → Except Unit (List Char × Bool)
  | [], s0, failed => if failed then .ok ([], false) else .ok (s0, true)
  | c :: chunkRest, s0, failed0 =>
    let failed := failed0 || s0.isEmpty
    if c = '[' then
      match hcl : classLoop (if failed then Char.ofNat 0 else s0.headD (Char.ofNat 0))
          (caretSplit chunkRest).2 false 0 with
      | .error e => .error e
      | .ok (m, chunk2) =>
        matchChunkLoop chunk2 (if failed then s0 else s0.tail)
          (failed || (m == (caretSplit chunkRest).1))
    else if c = '?' then
      if failed then matchChunkLoop chunkRest s0 failed
      else matchChunkLoop chunkRest s0.tail (s0.headD (Char.ofNat 0) == '/')
    else if c = '\\' then
      match chunkRest with
      | [] => .error ()
      | c2 :: chunkRest2 =>
        if failed then matchChunkLoop chunkRest2 s0 failed
        else matchChunkLoop chunkRest2 s0.tail (!(c2 == s0.headD (Char.ofNat 0)))
    else
      if failed then matchChunkLoop chunkRest s0 failed
      else matchChunkLoop chunkRest s0.tail (!(c == s0.headD (Char.ofNat 0)))
termination_by chunk _ _ => chunk.length
decreasing_by
  all_goals
    first
    | (have h1 := classLoop_len hcl
       have h2 := caretSplit_len chunkRest
       simp only [List.length_cons]
       omega)
    | (simp only [List.length_cons]; omega)

/-- matchChunk's entry state: the `failed` flag starts false. -/
def matchChunk (chunk s : List Char) : Except Unit (List Char × Bool) :=
  matchChunkLoop chunk s false

/-- The leading-star loop of scanChunk in Go's match.go. -/
def scanStars : List Char → Bool × List Char
  | [] => (false, [])
  | c :: rest => if c = '*' then (true, (scanStars rest).2) else (false, c :: rest)

/-- The chunk scan of scanChunk in Go's match.go: copy characters up to the
next unbracketed '*', skipping the character after a backslash, tracking
`inrange` across '[' and ']'.  Returns the chunk and the remaining
pattern. -/
def scanBody : List Char → Bool → List Char × List Char
  | [], _ => ([], [])
  | '\\' :: [], _ => (['\\'], [])
  | '\\' :: d :: rest, inrange =>
    let p := scanBody rest inrange
    ('\\' :: d :: p.1, p.2)
  | c :: rest, inrange =>
    if c = '[' then
      let p := scanBody rest true
      (c :: p.1, p.2)
    else if c = ']' then
      let p := scanBody rest false
      (c :: p.1, p.2)
    else if c = '*' then
      if inrange then
        let p := scanBody rest inrange
        (c :: p.1, p.2)
      else ([], c :: rest)
    else
      let p := scanBody rest inrange
      (c :: p.1, p.2)

/-- scanChunk from Go's match.go: strip leading stars, then scan one
chunk. -/
def scanChunk (pattern : List Char) : Bool × List Char × List Char :=
  let s := scanStars pattern
  let b := scanBody s.2 false
  (s.1, b.1, b.2)

theorem matchChunkLoop_eq (chunk s0 : List Char) (failed0 : Bool) :
    matchChunkLoop chunk s0 failed0 =
      match chunk with
      | [] => if failed0 then .ok ([], false) else .ok (s0, true)
      | c :: chunkRest =>
        let failed := failed0 || s0.isEmpty
        if c = '[' then
          match classLoop (if failed then Char.ofNat 0 else s0.headD (Char.ofNat 0))
              (caretSplit chunkRest).2 false 0 with
          | .error e => .error e
          | .ok (m, chunk2) =>
            matchChunkLoop chunk2 (if failed then s0 else s0.tail)
              (failed || (m == (caretSplit chunkRest).1))
        else if c = '?' then
          if failed then matchChunkLoop chunkRest s0 failed
          else matchChunkLoop chunkRest s0.tail (s0.headD (Char.ofNat 0) == '/')
        else if c = '\\' then
          match chunkRest with
          | [] => .error ()
          | c2 :: chunkRest2 =>
            if failed then matchChunkLoop chunkRest2 s0 failed
            else matchChunkLoop chunkRest2 s0.tail (!(c2 == s0.headD (Char.ofNat 0)))
        else
          if failed then matchChunkLoop chunkRest s0 failed
          else matchChunkLoop chunkRest s0.tail (!(c == s0.headD (Char.ofNat 0))) := by
  cases chunk with
  | nil => rw [matchChunkLoop.eq_def]
  | cons c chunkRest =>
    conv_lhs => rw [matchChunkLoop.eq_def]
    dsimp only
    split
    · split
      · next e heq => simp only [heq]
      · next m chunk2 heq => simp only [heq]
    · rfl

theorem scanStars_if_false {l : List Char} (h : (scanStars l).1 = false) :
    (scanStars l).2 = l := by
  cases l with
  | nil => rfl
  | cons c rest =>
    by_cases hc : c = '*' <;> simp [scanStars, hc] at h ⊢

theorem scanStars_len (l : List Char) : (scanStars l).2.length ≤ l.length := by
  induction l with
  | nil => simp [scanStars]
  | cons c rest ih =>
    by_cases hc : c = '*' <;> simp [scanStars, hc]
    omega

theorem scanStars_true_len {l : List Char} (h : (scanStars l).1 = true) :
    (scanStars l).2.length < l.length := by
  cases l with
  | nil => simp [scanStars] at h
  | cons c rest =>
    by_cases hc : c = '*' <;> simp [scanStars, hc] at h ⊢
    have := scanStars_len rest
    omega

theorem scanStars_head (l : List Char) : (scanStars l).2.head? ≠ some '*' := by
  induction l with
  | nil => simp [scanStars]
  | cons c rest ih =>
    by_cases hc : c = '*' <;> simp [scanStars, hc]
    exact ih

theorem scanBody_append (l : List Char) (ir : Bool) :
    (scanBody l ir).1 ++ (scanBody l ir).2 = l := by
  induction l, ir using scanBody.induct <;>
    first
    | (simp [scanBody] <;> split_ifs <;> simp_all)
    | simp_all [scanBody]

theorem scanBody_rest_le (l : List Char) (ir : Bool) :
    (scanBody l ir).2.length ≤ l.length := by
  have h := scanBody_append l ir
  have := congrArg List.length h
  simp only [List.length_append] at this
  omega

theorem scanBody_chunk_ne {c : Char} {rest : List Char} (h : c ≠ '*') :
    (scanBody (c :: rest) false).1 ≠ [] := by
  rw [scanBody.eq_def]
  split <;> try simp_all
  split_ifs <;> simp_all

theorem scanChunk_rest_lt {p : List Char} (hp : p ≠ []) :
    (scanChunk p).2.2.length < p.length := by
  have hred : (scanChunk p).2.2 = (scanBody (scanStars p).2 false).2 := rfl
  rw [hred]
  cases hstar : (scanStars p).1
  · have h2 := scanStars_if_false hstar
    have hh := scanStars_head p
    rw [h2] at hh ⊢
    match p, hp with
    | c :: rest, _ =>
      have hcs : c ≠ '*' := fun hx => by subst hx; simp at hh
      have hcne := @scanBody_chunk_ne c rest hcs
      have happ := scanBody_append (c :: rest) false
      have hlen : (scanBody (c :: rest) false).1.length + (scanBody (c :: rest) false).2.length
          = rest.length + 1 := by
        have := congrArg List.length happ
        simpa using this
      have hpos : 0 < (scanBody (c :: rest) false).1.length := List.length_pos.mpr hcne
      simp only [List.length_cons]
      omega
  · have hlt := scanStars_true_len hstar
    have hle := scanBody_rest_le (scanStars p).2 false
    omega

/-- The star-backtracking loop of Match in Go's match.go: try matching the
chunk at successive positions of the name (never crossing a separator).
`.ok (some t)` models `name = t; continue Pattern`; `.ok none` models
falling out of the loop. -/
def starLoop (chunk rest : List Char) : List Char → Except Unit (Option (List Char))
  | [] => .ok none
  | c :: nameRest =>
    if c = '/' then .ok none
    else
      match matchChunk chunk nameRest with
      | .error e => .error e
      | .ok (t, tok) =>
        if tok then
          if rest.isEmpty && !t.isEmpty then starLoop chunk rest nameRest
          else .ok (some t)
        else starLoop chunk rest nameRest

/-- The trailing syntax-check loop of Match in Go's match.go: before
returning a no-error false, every remaining chunk is checked for
well-formedness by matching it against the empty string. -/
def validateRest (p : List Char) : Except Unit Bool :=
  match p with
  | [] => .ok false
  | ph :: pt =>
    match matchChunk (scanChunk (ph :: pt)).2.1 [] with
    | .error e => .error e
    | .ok _ => validateRest (scanChunk (ph :: pt)).2.2
termination_by p.length
decreasing_by
  exact scanChunk_rest_lt (by simp)

/-- Match from Go's match.go (filepath.Match on non-Windows systems):
consume the pattern chunk by chunk; a chunk of bare stars matches any
separator-free remainder; a star before a chunk allows retrying the chunk
at later positions of the name. -/
def goMatch (p n : List Char) : Except Unit Bool :=
  match p with
  | [] => .ok n.isEmpty
  | ph :: pt =>
    if (scanChunk (ph :: pt)).1 && (scanChunk (ph :: pt)).2.1.isEmpty then
      .ok (!(n.contains '/'))
    else
      match matchChunk (scanChunk (ph :: pt)).2.1 n with
      | .error e => .error e
      | .ok (t, tok) =>
        if tok && (t.isEmpty || !(scanChunk (ph :: pt)).2.2.isEmpty) then
          goMatch (scanChunk (ph :: pt)).2.2 t
        else if (scanChunk (ph :: pt)).1 then
          match starLoop (scanChunk (ph :: pt)).2.1 (scanChunk (ph :: pt)).2.2 n with
          | .error e => .error e
          | .ok (some t2) => goMatch (scanChunk (ph :: pt)).2.2 t2
          | .ok none => validateRest (scanChunk (ph :: pt)).2.2
        else validateRest (scanChunk (ph :: pt)).2.2
termination_by p.length
decreasing_by
  all_goals exact scanChunk_rest_lt (by simp)

/-- filepath.Match at the String level (runes are the characters of the
Lean strings). -/
def filepathMatch (pattern name : String) : Except Unit Bool :=
  goMatch pattern.data name.data

/-- One match attempt of matchesAnyPatternWithPath in main.go:
`matched, err := filepath.Match(pattern, target); err == nil && matched`. -/
def matchNoErr (pattern target : String) : Bool :=
  match filepathMatch pattern target with
  | .ok matched => matched
  | .error _ => false

/-- matchesAnyPatternWithPath from main.go: try each pattern against the
basename, then (for a non-empty relative path) against the relative path
verbatim, then — only when stripping changed it — against the relative path
with one leading "./" stripped; first success returns true, exhaustion
false.  Match errors count as no match for that attempt. -/
def matchesAnyPatternWithPath (name relPath : String) (patterns : List String) : Bool :=
  match patterns with
  | [] => false
  | pattern :: restPatterns =>
    if matchNoErr pattern name then true
    else if relPath ≠ "" then
      if matchNoErr pattern relPath then true
      else if trimDotSlash relPath ≠ relPath then
        if matchNoErr pattern (trimDotSlash relPath) then true
        else matchesAnyPatternWithPath name relPath restPatterns
      else matchesAnyPatternWithPath name relPath restPatterns
    else matchesAnyPatternWithPath name relPath restPatterns

/-- The per-entry filtering decision of the walk in main.go (lines 329-364):
include patterns are the configuration's, replaced outright by the CLI's
when --include was set; exclude patterns are the configuration's with the
CLI's appended; the entry is excluded when it matches an exclude pattern
and is either not rescued by an include match or is matched by a CLI
exclude pattern. -/
def shouldExcludeDecision (name relPath : String)
    (cfgInclude cfgExclude cliInclude cliExclude : List String)
    (includeSetFlag : Bool) : Bool :=
  let includePatterns := if includeSetFlag then cliInclude else cfgInclude
  let excludePatterns := cfgExclude ++ cliExclude
  let excluded := matchesAnyPatternWithPath name relPath excludePatterns
  let explicitlyIncluded := matchesAnyPatternWithPath name relPath includePatterns
  let cliExcluded := matchesAnyPatternWithPath name relPath cliExclude
  excluded && (!explicitlyIncluded || cliExcluded)

/-! The per-file aggregation step of the walk in main.go: size filter,
binary filter, read, format, and the 1 MiB output ceiling. -/

/-- The max total size limit from main.go: 1MB = 1,048,576 bytes. -/
def maxTotalSize : Nat := 1 * 1024 * 1024

/-- One file reaching the per-file stage of the walk: its output-relative
path, its size on disk, the effective max-size and delimiter at that point
of the traversal, the text-classifier outcome (`none`: the classifier
errored) and the read outcome (`none`: os.ReadFile failed). -/
structure FileEntry where
  relPath : String
  size : Int
  maxSizeKB : Int
  delimiter : String
  isTextCheck : Option Bool
  readResult : Option String
deriving Repr, DecidableEq

/-- The fmt.Sprintf format string of main.go line 482. -/
def formatFileContent (relPath delimiter content : String) : String :=
  "\nFile: " ++ relPath ++ "\n\n" ++ delimiter ++ "\n" ++ content ++ "\n" ++ delimiter ++ "\n\n"

/-- The per-file body of the walk closure in main.go (lines 430-494):
skip the file on oversize, classifier error, binary content or read
failure; otherwise format it and append it to the builder unless doing so
would push the total size over the 1MB ceiling, which aborts the whole
walk with the error of line 487.  The state is (builder contents, total
size in bytes). -/
def processEntry (st : String × Nat) (e : FileEntry) : Except String (String × Nat) :=
  if e.size > e.maxSizeKB * 1024 then .ok st
  else
    match e.isTextCheck with
    | none => .ok st
    | some isText =>
      if !isText then .ok st
      else
        match e.readResult with
        | none => .ok st
        | some content =>
          let fileContent := formatFileContent e.relPath e.delimiter content
          let fileSize := fileContent.utf8ByteSize
          if st.2 + fileSize > maxTotalSize then
            .error "total output size exceeds 1MB limit; content not copied to the clipboard"
          else .ok (st.1 ++ fileContent, st.2 + fileSize)

/-- The aggregation over all files reaching the per-file stage, in walk
order, from the empty builder and zero total. -/
def runAggregation (entries : List FileEntry) : Except String (String × Nat) :=
  entries.foldlM processEntry ("", 0)

/-- What reaches the sink: main.go passes the builder to
clipboard.WriteAll only when the walk returned no error (a walk error is
fatal via log.Fatal before any write). -/
def deliveredOutput (entries : List FileEntry) : Option String :=
  match runAggregation entries with
  | .ok st => some st.1
  | .error _ => none

/-- A file that passes the size, binary and read filters. -/
def survives (e : FileEntry) : Bool :=
  decide (e.size ≤ e.maxSizeKB * 1024) &&
    (match e.isTextCheck with
     | some b => b
     | none => false) &&
    e.readResult.isSome

/-- The formatted output block of a surviving file. -/
def formattedOf (e : FileEntry) : String :=
  formatFileContent e.relPath e.delimiter (e.readResult.getD "")

/-- The full aggregate: every surviving file's block, in walk order. -/
def fullAggregate (entries : List FileEntry) : String :=
  ((entries.filter survives).map formattedOf).foldr (fun a b => a ++ b) ""

/-- Total byte size of the full aggregate. -/
def fullSize (entries : List FileEntry) : Nat :=
  (((entries.filter survives).map formattedOf).map String.utf8ByteSize).sum

/-- Specification vocabulary for the pattern matcher: one pattern hits an
entry when it matches the basename, or — for a non-empty relative path —
the relative path verbatim or with one leading "./" stripped. -/
def patternHit (pattern name relPath : String) : Bool :=
  matchNoErr pattern name ||
    (decide (relPath ≠ "") &&
      (matchNoErr pattern relPath || matchNoErr pattern (trimDotSlash relPath)))

/-- A configuration line that sets nothing: blank after trimming, a
#-comment, a line without '=', or a line whose key is not one of the five
recognized keys. -/
def unrecognizedLine (rawLine : String) : Bool :=
  let line := goTrim rawLine
  line == "" || headIs '#' line ||
    (match splitFirst '=' line.data with
     | none => true
     | some (k, _) =>
       let key := goTrim ⟨k⟩
       !(key == "delimiter" || key == "max-size" || key == "no-recursive" ||
         key == "include" || key == "exclude"))

/-- A fixture file system: a configuration file only at "/r". -/
def fsRootOnly : String → FileReadResult :=
  fun d => if d = "/r" then .readLines ["max-size=64"] false else .notExist

/-- A fixture file system where every directory has a configuration file
holding no recognized settings. -/
def fsAllSettingless : String → FileReadResult :=
  fun _ => .readLines ["# note", "", "foo=bar"] false

/-- A fixture content one byte over the 1 MiB ceiling. -/
def bigContent : String := ⟨List.replicate (maxTotalSize + 1) 'a'⟩

/-- A fixture entry whose formatted block alone exceeds the ceiling. -/
def bigEntry : FileEntry :=
  { relPath := "./big.txt", size := 0, maxSizeKB := 32, delimiter := "```",
    isTextCheck := some true, readResult := some bigContent }

/-- A small fixture entry. -/
def smallEntry : FileEntry :=
  { relPath := "./a.txt", size := 3, maxSizeKB := 32, delimiter := "```",
    isTextCheck := some true, readResult := some "abc" }

end Clip4llm

namespace Clip4llm

/-- Closed form of `mergeConfig` with a non-nil source, proved from the
sequence of conditional field updates in config.go. -/
theorem mergeConfig_some_eq (acc s : Config) :
    mergeConfig acc (some s) =
      { Delimiter := if s.Delimiter = "" then acc.Delimiter else s.Delimiter
        MaxSizeKB := if s.MaxSizeKB > 0 then s.MaxSizeKB else acc.MaxSizeKB
        NoRecursive := acc.NoRecursive || s.NoRecursive
        Include := acc.Include ++ s.Include
        Exclude := acc.Exclude ++ s.Exclude } := by
  obtain ⟨d, m, r, inc, exc⟩ := s
  simp only [mergeConfig]
  split_ifs <;> cases r <;> cases inc <;> cases exc <;> simp_all

/-- C1: merge semantics of `mergeConfig`: unset sentinels never overwrite,
set scalars overwrite, lists are appended in order after the accumulator's
elements, and an all-unset or absent layer is a right identity. -/
theorem mergeConfig_spec (acc layer : Config) :
    ((layer.Delimiter = "" → (mergeConfig acc (some layer)).Delimiter = acc.Delimiter)
      ∧ (layer.Delimiter ≠ "" → (mergeConfig acc (some layer)).Delimiter = layer.Delimiter))
    ∧ ((layer.MaxSizeKB ≤ 0 → (mergeConfig acc (some layer)).MaxSizeKB = acc.MaxSizeKB)
      ∧ (layer.MaxSizeKB > 0 → (mergeConfig acc (some layer)).MaxSizeKB = layer.MaxSizeKB))
    ∧ ((layer.NoRecursive = false → (mergeConfig acc (some layer)).NoRecursive = acc.NoRecursive)
      ∧ (layer.NoRecursive = true → (mergeConfig acc (some layer)).NoRecursive = true))
    ∧ (mergeConfig acc (some layer)).Include = acc.Include ++ layer.Include
    ∧ (mergeConfig acc (some layer)).Exclude = acc.Exclude ++ layer.Exclude
    ∧ mergeConfig acc none = acc
    ∧ mergeConfig acc (some zeroConfig) = acc := by
  refine ⟨⟨?_, ?_⟩, ⟨?_, ?_⟩, ⟨?_, ?_⟩, ?_, ?_, rfl, ?_⟩ <;>
    simp [mergeConfig_some_eq, zeroConfig] <;> intro h <;> simp [h]

/-- Witness for C1 at concrete inputs: a layer with include `[".config"]`
appended to an accumulator holding `[".github", "*.env"]` yields exactly
`[".github", "*.env", ".config"]`, a set delimiter overwrites, and the
all-unset layer changes nothing. -/
theorem mergeConfig_spec_witness :
    (mergeConfig
        { Delimiter := "```", MaxSizeKB := 32, NoRecursive := false,
          Include := [".github", "*.env"], Exclude := [] }
        (some { Delimiter := "---", MaxSizeKB := 0, NoRecursive := false,
                Include := [".config"], Exclude := [] })).Include
      = [".github", "*.env", ".config"]
    ∧ (mergeConfig
        { Delimiter := "```", MaxSizeKB := 32, NoRecursive := false,
          Include := [".github", "*.env"], Exclude := [] }
        (some { Delimiter := "---", MaxSizeKB := 0, NoRecursive := false,
                Include := [".config"], Exclude := [] })).Delimiter = "---"
    ∧ mergeConfig
        { Delimiter := "```", MaxSizeKB := 32, NoRecursive := false,
          Include := [".github", "*.env"], Exclude := [] } (some zeroConfig)
      = { Delimiter := "```", MaxSizeKB := 32, NoRecursive := false,
          Include := [".github", "*.env"], Exclude := [] } := by
  have h := mergeConfig_spec
    { Delimiter := "```", MaxSizeKB := 32, NoRecursive := false,
      Include := [".github", "*.env"], Exclude := [] }
    { Delimiter := "---", MaxSizeKB := 0, NoRecursive := false,
      Include := [".config"], Exclude := [] }
  exact ⟨h.2.2.2.1, h.1.2 (by decide), h.2.2.2.2.2.2⟩

/-- C8: merging layer L1 then layer L2 into any configuration equals merging
the single elementwise merge of L1 then L2 (last set scalar wins, lists
concatenated in order). -/
theorem mergeConfig_assoc_in_order (c l1 l2 : Config) :
    mergeConfig (mergeConfig c (some l1)) (some l2)
      = mergeConfig c (some (specElementwiseMerge l1 l2)) := by
  simp only [mergeConfig_some_eq, specElementwiseMerge]
  by_cases h1 : l1.Delimiter = "" <;> by_cases h2 : l2.Delimiter = "" <;>
    by_cases h3 : l1.MaxSizeKB > 0 <;> by_cases h4 : l2.MaxSizeKB > 0 <;>
    simp_all [Bool.or_assoc, List.append_assoc] <;> omega

theorem mergeConfig_zero (acc : Config) : mergeConfig acc (some zeroConfig) = acc := by
  simp [mergeConfig_some_eq, zeroConfig]

theorem applyLine_unrecognized {l : String} (h : unrecognizedLine l = true) (cfg : Config) :
    applyLine cfg l = cfg := by
  simp only [unrecognizedLine, Bool.or_eq_true] at h
  unfold applyLine
  rcases h with (h | h) | h
  · have hb : decide (goTrim l = "") = true := by simpa using h
    simp [hb]
  · simp [h]
  · by_cases hb : (decide (goTrim l = "") || headIs '#' (goTrim l)) = true
    · simp [hb]
    · rw [if_neg hb]
      split at h
      · rfl
      · next k v hsp =>
        simp only [Bool.not_eq_true', Bool.or_eq_false_iff, beq_eq_false_iff_ne] at h
        obtain ⟨⟨⟨⟨h1, h2⟩, h3⟩, h4⟩, h5⟩ := h
        simp [h1, h2, h3, h4, h5]

theorem foldl_applyLine_unrecognized {lines : List String}
    (h : ∀ l ∈ lines, unrecognizedLine l = true) (cfg : Config) :
    lines.foldl applyLine cfg = cfg := by
  induction lines generalizing cfg with
  | nil => rfl
  | cons a rest ih =>
    simp only [List.foldl_cons]
    rw [applyLine_unrecognized (h a (List.mem_cons_self a rest))]
    exact ih (fun l hl => h l (List.mem_cons_of_mem a hl)) cfg

theorem lookupCache_append_none {cache : List (String × Option Config)} {dir : String}
    (h : lookupCache cache dir = none) (v : Option Config) :
    lookupCache (cache ++ [(dir, v)]) dir = some v := by
  unfold lookupCache at h ⊢
  induction cache with
  | nil => simp
  | cons a rest ih =>
    simp only [List.cons_append, List.find?_cons] at h ⊢
    cases hd : (decide (a.1 = dir)) with
    | true => simp [hd] at h
    | false =>
      simp only [hd] at h ⊢
      exact ih (by simpa using h)

/-- C9 counterexample: a read error part-way through an existing source
does not yield absent — the config parsed from the lines delivered before
the failure is returned. -/
theorem loadConfigFromFile_partial_read_counterexample :
    loadConfigFromFile (.readLines ["delimiter=---"] true)
      = some { Delimiter := "---", MaxSizeKB := 0, NoRecursive := false,
               Include := [], Exclude := [] }
    ∧ loadConfigFromFile (.readLines ["delimiter=---"] true) ≠ none := by
  constructor
  · decide
  · decide

/-- C9 (amended): parse returns absent when the source does not exist and
when opening an existing source fails; neither aborts the caller.  A read
failure part-way through an opened source does not yield absent: the
settings parsed from the lines delivered before the failure are returned
as a present layer. -/
theorem loadConfigFromFile_spec (lines : List String) (scanErr : Bool) :
    loadConfigFromFile .notExist = none
    ∧ loadConfigFromFile .openErr = none
    ∧ loadConfigFromFile (.readLines lines scanErr) = some (parseLines lines) :=
  ⟨rfl, rfl, rfl⟩

/-- C10: a readable configuration file with no recognized settings parses
to a present layer with every field at its unset sentinel; pushIfExists
pushes it and returns true, and the effective configuration is unchanged
by the new layer. -/
theorem pushIfExists_settingless_config_spec
    (fs : String → FileReadResult) (cs : ConfigStack) (dir : String)
    (lines : List String) (scanErr : Bool)
    (hroot : dir ≠ cs.rootDir) (hhome : dir ≠ cs.homeDir)
    (hcache : lookupCache cs.cache dir = none)
    (hfs : fs dir = .readLines lines scanErr)
    (hlines : ∀ l ∈ lines, unrecognizedLine l = true) :
    loadConfigFromFile (fs dir) = some zeroConfig
    ∧ (PushIfExists fs cs dir).pushed = true
    ∧ (PushIfExists fs cs dir).stack.layers = cs.layers ++ [⟨dir, zeroConfig⟩]
    ∧ GetEffectiveConfig (PushIfExists fs cs dir).stack = GetEffectiveConfig cs := by
  have hload : loadConfigFromFile (fs dir) = some zeroConfig := by
    rw [hfs]
    show some (List.foldl applyLine zeroConfig lines) = some zeroConfig
    rw [foldl_applyLine_unrecognized hlines]
  have hpush : PushIfExists fs cs dir =
      ⟨{ cs with
         cache := cs.cache ++ [(dir, some zeroConfig)],
         layers := cs.layers ++ [⟨dir, zeroConfig⟩] }, true, 1⟩ := by
    unfold PushIfExists
    rw [if_neg (by simp [hroot, hhome]), hcache]
    simp only [hload]
  refine ⟨hload, by rw [hpush], by rw [hpush], ?_⟩
  rw [hpush]
  unfold GetEffectiveConfig
  simp only [List.foldl_append, List.foldl_cons, List.foldl_nil]
  exact mergeConfig_zero _

/-- Witness for C10 at a concrete stack, file system and directory. -/
theorem pushIfExists_settingless_config_witness :
    (PushIfExists fsAllSettingless
        (NewConfigStack fsAllSettingless "/r" (some "/h")) "/a").pushed = true
    ∧ GetEffectiveConfig (PushIfExists fsAllSettingless
        (NewConfigStack fsAllSettingless "/r" (some "/h")) "/a").stack
      = GetEffectiveConfig (NewConfigStack fsAllSettingless "/r" (some "/h")) := by
  have hr : "/a" ≠ (NewConfigStack fsAllSettingless "/r" (some "/h")).rootDir := by decide
  have hh : "/a" ≠ (NewConfigStack fsAllSettingless "/r" (some "/h")).homeDir := by decide
  have hc : lookupCache (NewConfigStack fsAllSettingless "/r" (some "/h")).cache "/a"
      = none := by decide
  have hf : fsAllSettingless "/a" = .readLines ["# note", "", "foo=bar"] false := by decide
  have hl : ∀ l ∈ (["# note", "", "foo=bar"] : List String),
      unrecognizedLine l = true := by decide
  have h := pushIfExists_settingless_config_spec fsAllSettingless
    (NewConfigStack fsAllSettingless "/r" (some "/h")) "/a"
    ["# note", "", "foo=bar"] false hr hh hc hf hl
  exact ⟨h.2.1, h.2.2.2⟩

/-- C7: pushIfExists on the recorded root or home directory is a no-op
returning false: no disk probe, stack and cache unchanged. -/
theorem pushIfExists_root_home_noop (fs : String → FileReadResult)
    (cs : ConfigStack) (dir : String) (h : dir = cs.rootDir ∨ dir = cs.homeDir) :
    PushIfExists fs cs dir = ⟨cs, false, 0⟩ := by
  unfold PushIfExists
  rw [if_pos h]

/-- Witness for C7: re-pushing the root directory of a freshly constructed
stack changes nothing. -/
theorem pushIfExists_root_home_noop_witness :
    PushIfExists fsRootOnly (NewConfigStack fsRootOnly "/r" (some "/h")) "/r"
      = ⟨NewConfigStack fsRootOnly "/r" (some "/h"), false, 0⟩ :=
  pushIfExists_root_home_noop fsRootOnly (NewConfigStack fsRootOnly "/r" (some "/h"))
    "/r" (Or.inl (by decide))

/-- C6: for a non-root, non-home directory, a cache miss probes the disk
exactly once; with no configuration present the result is a recorded
negative entry and false, and the second call returns false with no disk
access and no state change.  A cached positive entry is re-pushed sharing
the parsed config, with no disk access and no re-parse. -/
theorem pushIfExists_cache_spec (fs : String → FileReadResult)
    (cs : ConfigStack) (dir : String)
    (hroot : dir ≠ cs.rootDir) (hhome : dir ≠ cs.homeDir) :
    (lookupCache cs.cache dir = none → loadConfigFromFile (fs dir) = none →
      (PushIfExists fs cs dir).pushed = false
      ∧ (PushIfExists fs cs dir).diskProbes = 1
      ∧ (PushIfExists fs cs dir).stack.layers = cs.layers
      ∧ (PushIfExists fs cs dir).stack.cache = cs.cache ++ [(dir, none)]
      ∧ (PushIfExists fs (PushIfExists fs cs dir).stack dir).pushed = false
      ∧ (PushIfExists fs (PushIfExists fs cs dir).stack dir).diskProbes = 0
      ∧ (PushIfExists fs (PushIfExists fs cs dir).stack dir).stack
          = (PushIfExists fs cs dir).stack)
    ∧ (∀ cfg, lookupCache cs.cache dir = some (some cfg) →
        (PushIfExists fs cs dir).pushed = true
        ∧ (PushIfExists fs cs dir).diskProbes = 0
        ∧ (PushIfExists fs cs dir).stack.layers = cs.layers ++ [⟨dir, cfg⟩]
        ∧ (PushIfExists fs cs dir).stack.cache = cs.cache) := by
  constructor
  · intro hcache hload
    have h1 : PushIfExists fs cs dir =
        ⟨{ cs with cache := cs.cache ++ [(dir, none)] }, false, 1⟩ := by
      unfold PushIfExists
      rw [if_neg (by simp [hroot, hhome]), hcache]
      simp only [hload]
    have h2 : PushIfExists fs { cs with cache := cs.cache ++ [(dir, none)] } dir =
        ⟨{ cs with cache := cs.cache ++ [(dir, none)] }, false, 0⟩ := by
      unfold PushIfExists
      rw [if_neg (by simp [hroot, hhome]), lookupCache_append_none hcache none]
    rw [h1]
    exact ⟨rfl, rfl, rfl, rfl, by rw [h2], by rw [h2], by rw [h2]⟩
  · intro cfg hcache
    have h1 : PushIfExists fs cs dir =
        ⟨{ cs with layers := cs.layers ++ [⟨dir, cfg⟩] }, true, 0⟩ := by
      unfold PushIfExists
      rw [if_neg (by simp [hroot, hhome]), hcache]
    rw [h1]
    exact ⟨rfl, rfl, rfl, rfl⟩

theorem newConfigStack_rootDir (fs : String → FileReadResult) (rootDir : String)
    (homeRes : Option String) : (NewConfigStack fs rootDir homeRes).rootDir = rootDir := by
  unfold NewConfigStack
  cases homeRes <;> dsimp only <;> (repeat' split) <;> rfl

theorem newConfigStack_homeDir (fs : String → FileReadResult) (rootDir : String)
    (homeRes : Option String) :
    (NewConfigStack fs rootDir homeRes).homeDir = homeRes.getD "" := by
  unfold NewConfigStack
  cases homeRes <;> dsimp only <;> (repeat' split) <;> rfl

theorem newConfigStack_layers_dirs (fs : String → FileReadResult) (rootDir : String)
    (homeRes : Option String) :
    ∀ l ∈ (NewConfigStack fs rootDir homeRes).layers,
      l.Directory = rootDir ∨ l.Directory = homeRes.getD "" := by
  unfold NewConfigStack
  cases homeRes <;> dsimp only <;> (repeat' split) <;> intro l hl <;>
    simp only [List.mem_singleton, List.mem_cons, List.not_mem_nil, or_false,
      List.nil_append, List.cons_append, List.append_nil] at hl <;>
    first
    | exact absurd hl (List.not_mem_nil l)
    | (rcases hl with rfl | rfl <;> simp)

theorem pushIfExists_stack_rootDir (fs : String → FileReadResult) (cs : ConfigStack)
    (dir : String) : (PushIfExists fs cs dir).stack.rootDir = cs.rootDir := by
  unfold PushIfExists
  dsimp only
  (repeat' split) <;> rfl

theorem pushIfExists_stack_homeDir (fs : String → FileReadResult) (cs : ConfigStack)
    (dir : String) : (PushIfExists fs cs dir).stack.homeDir = cs.homeDir := by
  unfold PushIfExists
  dsimp only
  (repeat' split) <;> rfl

theorem pushIfExists_stack_layers (fs : String → FileReadResult) (cs : ConfigStack)
    (dir : String) :
    (PushIfExists fs cs dir).stack.layers = cs.layers
    ∨ ∃ cfg, dir ≠ cs.rootDir ∧ dir ≠ cs.homeDir
        ∧ (PushIfExists fs cs dir).stack.layers = cs.layers ++ [⟨dir, cfg⟩] := by
  unfold PushIfExists
  dsimp only
  split
  · exact Or.inl rfl
  · next hguard =>
    rw [not_or] at hguard
    split
    · split
      · exact Or.inr ⟨_, hguard.1, hguard.2, rfl⟩
      · exact Or.inl rfl
    · split
      · exact Or.inr ⟨_, hguard.1, hguard.2, rfl⟩
      · exact Or.inl rfl

theorem pop_rootDir (cs : ConfigStack) (dir : String) : (Pop cs dir).rootDir = cs.rootDir := by
  unfold Pop
  (repeat' split) <;> rfl

theorem pop_homeDir (cs : ConfigStack) (dir : String) : (Pop cs dir).homeDir = cs.homeDir := by
  unfold Pop
  (repeat' split) <;> rfl

theorem reachable_invariant {fs : String → FileReadResult} {cs0 cs : ConfigStack}
    (hbase : ∀ l ∈ cs0.layers, l.Directory = cs0.rootDir ∨ l.Directory = cs0.homeDir)
    (h : ReachableFrom fs cs0 cs) :
    cs.rootDir = cs0.rootDir ∧ cs.homeDir = cs0.homeDir
    ∧ ∃ extra, cs.layers = cs0.layers ++ extra
        ∧ ∀ l ∈ extra, l.Directory ≠ cs0.rootDir ∧ l.Directory ≠ cs0.homeDir := by
  induction h with
  | refl => exact ⟨rfl, rfl, [], by simp, by simp⟩
  | push cs dir hr ih =>
    obtain ⟨hrd, hhd, extra, hlay, hdirs⟩ := ih
    refine ⟨by rw [pushIfExists_stack_rootDir]; exact hrd,
      by rw [pushIfExists_stack_homeDir]; exact hhd, ?_⟩
    rcases pushIfExists_stack_layers fs cs dir with heq | ⟨cfg, hd1, hd2, heq⟩
    · exact ⟨extra, by rw [heq, hlay], hdirs⟩
    · refine ⟨extra ++ [⟨dir, cfg⟩], by rw [heq, hlay, List.append_assoc], ?_⟩
      intro l hl
      rcases List.mem_append.mp hl with hl | hl
      · exact hdirs l hl
      · rcases List.mem_singleton.mp hl with rfl
        rw [hrd] at hd1
        rw [hhd] at hd2
        exact ⟨hd1, hd2⟩
  | pop cs dir hr hnr hnh ih =>
    obtain ⟨hrd, hhd, extra, hlay, hdirs⟩ := ih
    refine ⟨by rw [pop_rootDir]; exact hrd, by rw [pop_homeDir]; exact hhd, ?_⟩
    rw [hrd] at hnr
    rw [hhd] at hnh
    rcases List.eq_nil_or_concat extra with rfl | ⟨front, last, rfl⟩
    · -- no pushed layers: the top, if any, is a base layer, so Pop is a no-op
      refine ⟨[], ?_, by simp⟩
      simp only [List.append_nil] at hlay
      unfold Pop
      split
      · simp [hlay]
      · next top htop =>
        split
        · next hmatch =>
          exfalso
          have hmem : top ∈ cs.layers := by
            obtain ⟨hne2, heq2⟩ :=
              List.mem_getLast?_eq_getLast (Option.mem_def.mpr htop)
            rw [heq2]
            exact List.getLast_mem hne2
          rw [hlay] at hmem
          rcases hbase top hmem with hd | hd
          · exact hnr (hmatch ▸ hd ▸ rfl)
          · exact hnh (hmatch ▸ hd ▸ rfl)
        · simp [hlay]
    · -- a pushed layer may be popped; the base prefix survives
      simp only [List.concat_eq_append] at hlay hdirs
      have hne : front ++ [last] ≠ ([] : List ConfigLayer) := by simp
      unfold Pop
      split
      · next hnone =>
        rw [hlay, List.getLast?_append_of_ne_nil _ hne] at hnone
        simp at hnone
      · next top htop =>
        rw [hlay, List.getLast?_append_of_ne_nil _ hne] at htop
        simp only [List.getLast?_concat, Option.some.injEq] at htop
        subst htop
        split
        · refine ⟨front, ?_, ?_⟩
          · simp only [hlay, ← List.append_assoc]
            rw [List.dropLast_concat]
          · intro l hl
            exact hdirs l (List.mem_append.mpr (Or.inl hl))
        · refine ⟨front ++ [last], hlay, hdirs⟩

/-- C5 counterexample: a directory-scoped Pop call with the root directory
removes the root base layer loaded at construction — Pop has no base-layer
exemption. -/
theorem pop_root_removes_base_layer :
    (NewConfigStack fsRootOnly "/r" (some "/h")).layers ≠ []
    ∧ (Pop (NewConfigStack fsRootOnly "/r" (some "/h")) "/r").layers = [] := by
  constructor <;> decide

/-- C5 (amended): a Pop call with any directory other than the recorded
root and home directories never removes a construction-time base layer, and
PushIfExists never pushes a layer for root or home; so after any sequence
of PushIfExists calls and such Pop calls, the base layers loaded at
construction are still on the stack, as a prefix in their original
order. -/
theorem base_layers_preserved (fs : String → FileReadResult) (rootDir : String)
    (homeRes : Option String) (cs : ConfigStack)
    (h : ReachableFrom fs (NewConfigStack fs rootDir homeRes) cs) :
    (NewConfigStack fs rootDir homeRes).layers <+: cs.layers := by
  have hbase : ∀ l ∈ (NewConfigStack fs rootDir homeRes).layers,
      l.Directory = (NewConfigStack fs rootDir homeRes).rootDir
      ∨ l.Directory = (NewConfigStack fs rootDir homeRes).homeDir := by
    rw [newConfigStack_rootDir, newConfigStack_homeDir]
    exact newConfigStack_layers_dirs fs rootDir homeRes
  obtain ⟨-, -, extra, hlay, -⟩ := reachable_invariant hbase h
  exact ⟨extra, hlay.symm⟩

theorem matchesAny_cons (name relPath : String) (p : String) (ps : List String) :
    matchesAnyPatternWithPath name relPath (p :: ps)
      = (patternHit p name relPath || matchesAnyPatternWithPath name relPath ps) := by
  conv_lhs => rw [matchesAnyPatternWithPath]
  unfold patternHit
  by_cases h1 : matchNoErr p name <;>
    by_cases h2 : relPath = "" <;>
    by_cases h3 : matchNoErr p relPath <;>
    by_cases h5 : matchNoErr p (trimDotSlash relPath) <;>
    by_cases h4 : trimDotSlash relPath = relPath <;>
    simp_all

theorem matchesAny_append (name relPath : String) (ps qs : List String) :
    matchesAnyPatternWithPath name relPath (ps ++ qs)
      = (matchesAnyPatternWithPath name relPath ps
          || matchesAnyPatternWithPath name relPath qs) := by
  induction ps with
  | nil => simp [matchesAnyPatternWithPath]
  | cons p ps ih => simp [matchesAny_cons, ih, Bool.or_assoc]

/-- C4: the pattern matcher is a pure function returning true exactly when
some pattern matches the basename or — for a non-empty relative path — the
relative path verbatim or with one leading "./" stripped, a malformed
pattern counting as a non-match for its attempt and never aborting the
caller; an empty pattern list yields false.  The spec's concrete examples
hold, "[" is a malformed pattern, and a later pattern still matches after
an earlier malformed one. -/
theorem matchesAnyPatternWithPath_spec (name relPath : String) (patterns : List String) :
    (matchesAnyPatternWithPath name relPath patterns = true ↔
      ∃ p ∈ patterns, patternHit p name relPath = true)
    ∧ matchesAnyPatternWithPath name relPath [] = false
    ∧ matchesAnyPatternWithPath "test.md" "./docs/test.md" ["*.md"] = true
    ∧ matchesAnyPatternWithPath "test.go" "./src/test.go" ["*.md"] = false
    ∧ filepathMatch "[" "x" = .error ()
    ∧ matchesAnyPatternWithPath "x" "" ["[", "*"] = true := by
  refine ⟨?_, rfl, ?_, ?_, ?_, ?_⟩
  · induction patterns with
    | nil => simp [matchesAnyPatternWithPath]
    | cons p ps ih => simp [matchesAny_cons, ih]
  all_goals
    simp [matchesAnyPatternWithPath, matchNoErr, filepathMatch, goMatch, matchChunk,
      matchChunkLoop_eq, classLoop_eq, scanChunk, scanStars, scanBody, caretSplit, getEsc,
      starLoop, validateRest, trimDotSlash]

/-- C2: a command-line exclude match forces the final decision to exclude,
regardless of any include match; when no command-line exclude matches, the
decision reduces to the configuration excludes minus the include rescue —
so an include match can rescue only from configuration-derived excludes. -/
theorem cli_exclude_always_wins (name relPath : String)
    (cfgInclude cfgExclude cliInclude cliExclude : List String) (includeSetFlag : Bool) :
    (matchesAnyPatternWithPath name relPath cliExclude = true →
      shouldExcludeDecision name relPath cfgInclude cfgExclude cliInclude cliExclude
        includeSetFlag = true)
    ∧ (matchesAnyPatternWithPath name relPath cliExclude = false →
      shouldExcludeDecision name relPath cfgInclude cfgExclude cliInclude cliExclude
        includeSetFlag
        = (matchesAnyPatternWithPath name relPath cfgExclude
            && !matchesAnyPatternWithPath name relPath
                (if includeSetFlag then cliInclude else cfgInclude))) := by
  unfold shouldExcludeDecision
  constructor
  · intro h
    simp [matchesAny_append, h]
  · intro h
    simp [matchesAny_append, h]

/-- Witness for C2: --exclude=*.go beats a configuration include=*.go on a
Go file. -/
theorem cli_exclude_always_wins_witness :
    shouldExcludeDecision "test.go" "./src/test.go" ["*.go"] [] [] ["*.go"] false = true := by
  apply (cli_exclude_always_wins "test.go" "./src/test.go" ["*.go"] [] [] ["*.go"] false).1
  simp [matchesAnyPatternWithPath, matchNoErr, filepathMatch, goMatch, matchChunk,
    matchChunkLoop_eq, classLoop_eq, scanChunk, scanStars, scanBody, caretSplit, getEsc,
    starLoop, validateRest, trimDotSlash]

theorem processEntry_skip {e : FileEntry} (h : survives e = false) (st : String × Nat) :
    processEntry st e = .ok st := by
  by_cases h1 : e.size > e.maxSizeKB * 1024
  · simp [processEntry, h1]
  · cases ht : e.isTextCheck with
    | none => simp [processEntry, h1, ht]
    | some b =>
      cases b
      · simp [processEntry, h1, ht]
      · cases hr : e.readResult with
        | none => simp [processEntry, h1, ht, hr]
        | some c =>
          exfalso
          have hle : e.size ≤ e.maxSizeKB * 1024 := by omega
          simp [survives, ht, hr, hle] at h

theorem processEntry_surv {e : FileEntry} (h : survives e = true) (acc : String) (tot : Nat) :
    processEntry (acc, tot) e =
      if tot + (formattedOf e).utf8ByteSize > maxTotalSize then
        .error "total output size exceeds 1MB limit; content not copied to the clipboard"
      else .ok (acc ++ formattedOf e, tot + (formattedOf e).utf8ByteSize) := by
  simp only [survives, Bool.and_eq_true, decide_eq_true_eq] at h
  obtain ⟨⟨hsz, htx⟩, hrd⟩ := h
  obtain ⟨c, hc⟩ := Option.isSome_iff_exists.mp hrd
  have htx' : e.isTextCheck = some true := by
    cases ht : e.isTextCheck with
    | none => rw [ht] at htx; simp at htx
    | some b =>
      rw [ht] at htx
      cases b
      · simp at htx
      · rfl
  unfold processEntry
  rw [if_neg (by omega), htx', hc]
  simp [formattedOf, hc]

theorem fullSize_cons (e : FileEntry) (rest : List FileEntry) :
    fullSize (e :: rest) =
      (if survives e then (formattedOf e).utf8ByteSize else 0) + fullSize rest := by
  cases hs : survives e <;> simp [fullSize, hs]

theorem string_nil_append (s : String) : "" ++ s = s := by
  obtain ⟨l⟩ := s
  rfl

theorem fullAggregate_cons (e : FileEntry) (rest : List FileEntry) :
    fullAggregate (e :: rest) =
      (if survives e then formattedOf e else "") ++ fullAggregate rest := by
  cases hs : survives e <;> simp [fullAggregate, hs, string_nil_append]

theorem runAggregation_go (entries : List FileEntry) :
    ∀ (acc : String) (tot : Nat), tot ≤ maxTotalSize →
      (tot + fullSize entries ≤ maxTotalSize →
        entries.foldlM processEntry (acc, tot)
          = .ok (acc ++ fullAggregate entries, tot + fullSize entries))
      ∧ (maxTotalSize < tot + fullSize entries →
        entries.foldlM processEntry (acc, tot)
          = .error "total output size exceeds 1MB limit; content not copied to the clipboard") := by
  induction entries with
  | nil =>
    intro acc tot htot
    refine ⟨fun h => ?_, fun h => absurd h (by simp [fullSize]; omega)⟩
    simp [fullSize, fullAggregate, List.foldlM]
    rfl
  | cons e rest ih =>
    intro acc tot htot
    cases hs : survives e with
    | false =>
      have hstep := processEntry_skip hs (acc, tot)
      have hfsz : fullSize (e :: rest) = fullSize rest := by simp [fullSize_cons, hs]
      have hagg : fullAggregate (e :: rest) = fullAggregate rest := by
        simp [fullAggregate_cons, hs, string_nil_append]
      have ih' := ih acc tot htot
      rw [hfsz, hagg]
      refine ⟨fun h => ?_, fun h => ?_⟩
      · rw [List.foldlM_cons, hstep]
        simpa using ih'.1 h
      · rw [List.foldlM_cons, hstep]
        simpa using ih'.2 h
    | true =>
      have hstep := processEntry_surv hs acc tot
      have hfsz : fullSize (e :: rest)
          = (formattedOf e).utf8ByteSize + fullSize rest := by simp [fullSize_cons, hs]
      by_cases hover : tot + (formattedOf e).utf8ByteSize > maxTotalSize
      · refine ⟨fun h => absurd h (by rw [hfsz]; omega), fun h => ?_⟩
        rw [List.foldlM_cons, hstep, if_pos hover]
        rfl
      · have hstep' : processEntry (acc, tot) e
            = .ok (acc ++ formattedOf e, tot + (formattedOf e).utf8ByteSize) := by
          rw [hstep, if_neg hover]
        have ih' := ih (acc ++ formattedOf e) (tot + (formattedOf e).utf8ByteSize) (by omega)
        have hagg : fullAggregate (e :: rest) = formattedOf e ++ fullAggregate rest := by
          simp [fullAggregate_cons, hs]
        refine ⟨fun h => ?_, fun h => ?_⟩
        · rw [List.foldlM_cons, hstep']
          have := ih'.1 (by rw [hfsz] at h; omega)
          simpa [hagg, hfsz, String.append_assoc, Nat.add_assoc] using this
        · rw [List.foldlM_cons, hstep']
          have := ih'.2 (by rw [hfsz] at h; omega)
          simpa using this

/-- C3: the aggregation step errors (with the descriptive message of
main.go line 487, the only error it can produce) exactly when appending the
surviving files' formatted blocks would exceed the 1 MiB ceiling; on error
nothing is delivered to the sink, and a run whose aggregate fits the
ceiling delivers the full aggregate. -/
theorem aggregation_ceiling_spec (entries : List FileEntry) :
    (∀ msg, runAggregation entries = .error msg →
      msg = "total output size exceeds 1MB limit; content not copied to the clipboard"
      ∧ deliveredOutput entries = none)
    ∧ (fullSize entries ≤ maxTotalSize →
      runAggregation entries = .ok (fullAggregate entries, fullSize entries)
      ∧ deliveredOutput entries = some (fullAggregate entries))
    ∧ (maxTotalSize < fullSize entries →
      runAggregation entries
        = .error "total output size exceeds 1MB limit; content not copied to the clipboard"
      ∧ deliveredOutput entries = none) := by
  have hgo := runAggregation_go entries "" 0 (by simp [maxTotalSize])
  have hok : fullSize entries ≤ maxTotalSize →
      runAggregation entries = .ok (fullAggregate entries, fullSize entries) := by
    intro h
    have := hgo.1 (by omega)
    rw [string_nil_append] at this
    simpa [runAggregation] using this
  have herr : maxTotalSize < fullSize entries →
      runAggregation entries
        = .error "total output size exceeds 1MB limit; content not copied to the clipboard" := by
    intro h
    have := hgo.2 (by omega)
    simpa [runAggregation] using this
  refine ⟨?_, fun h => ⟨hok h, by simp [deliveredOutput, hok h]⟩,
    fun h => ⟨herr h, by simp [deliveredOutput, herr h]⟩⟩
  intro msg hmsg
  by_cases h : fullSize entries ≤ maxTotalSize
  · rw [hok h] at hmsg
    exact absurd hmsg (by simp)
  · have h' : maxTotalSize < fullSize entries := by omega
    rw [herr h'] at hmsg
    simp only [Except.error.injEq] at hmsg
    exact ⟨hmsg.symm, by simp [deliveredOutput, herr h']⟩

theorem utf8ByteSizeGo_append (l1 l2 : List Char) :
    String.utf8ByteSize.go (l1 ++ l2)
      = String.utf8ByteSize.go l1 + String.utf8ByteSize.go l2 := by
  induction l1 with
  | nil => simp [String.utf8ByteSize.go]
  | cons c cs ih => simp [String.utf8ByteSize.go, ih]; omega

theorem utf8ByteSize_append (a b : String) :
    (a ++ b).utf8ByteSize = a.utf8ByteSize + b.utf8ByteSize := by
  obtain ⟨l1⟩ := a
  obtain ⟨l2⟩ := b
  show String.utf8ByteSize ⟨l1 ++ l2⟩ = _
  simp [String.utf8ByteSize, utf8ByteSizeGo_append]

theorem utf8ByteSizeGo_replicate (n : Nat) :
    String.utf8ByteSize.go (List.replicate n 'a') = n := by
  induction n with
  | zero => rfl
  | succ n ih =>
    have hstep : String.utf8ByteSize.go ('a' :: List.replicate n 'a')
        = String.utf8ByteSize.go (List.replicate n 'a') + 'a'.utf8Size := rfl
    have ha : 'a'.utf8Size = 1 := rfl
    rw [List.replicate_succ, hstep, ih, ha]

theorem bigContent_size : bigContent.utf8ByteSize = maxTotalSize + 1 :=
  utf8ByteSizeGo_replicate (maxTotalSize + 1)

theorem bigEntry_exceeds : maxTotalSize < fullSize [bigEntry] := by
  have hs : survives bigEntry = true := by
    simp [survives, bigEntry]
  have h0 : fullSize ([] : List FileEntry) = 0 := rfl
  have h1 : fullSize [bigEntry] = (formattedOf bigEntry).utf8ByteSize := by
    rw [fullSize_cons, if_pos hs, h0, Nat.add_zero]
  have h2 : bigContent.utf8ByteSize ≤ (formattedOf bigEntry).utf8ByteSize := by
    simp only [formattedOf, bigEntry, formatFileContent, utf8ByteSize_append,
      Option.getD_some]
    omega
  have h3 := bigContent_size
  rw [h1]
  omega

/-- Witness for C3: a small run delivers its full aggregate; a run holding
one file over the ceiling aborts with the descriptive error and delivers
nothing. -/
theorem aggregation_ceiling_spec_witness :
    runAggregation [smallEntry] = .ok (fullAggregate [smallEntry], fullSize [smallEntry])
    ∧ deliveredOutput [smallEntry] = some (fullAggregate [smallEntry])
    ∧ runAggregation [bigEntry]
      = .error "total output size exceeds 1MB limit; content not copied to the clipboard"
    ∧ deliveredOutput [bigEntry] = none := by
  have hsmall := (aggregation_ceiling_spec [smallEntry]).2.1 (by decide)
  have hbig := (aggregation_ceiling_spec [bigEntry]).2.2 bigEntry_exceeds
  exact ⟨hsmall.1, hsmall.2, hbig.1, hbig.2⟩

/-- Witness for C5 (amended): push then pop a scoped directory; the root
base layer is still at the bottom. -/
theorem base_layers_preserved_witness :
    (NewConfigStack fsRootOnly "/r" (some "/h")).layers
      <+: (Pop (PushIfExists fsRootOnly
            (NewConfigStack fsRootOnly "/r" (some "/h")) "/a").stack "/a").layers := by
  have h2 : ReachableFrom fsRootOnly (NewConfigStack fsRootOnly "/r" (some "/h"))
      (PushIfExists fsRootOnly (NewConfigStack fsRootOnly "/r" (some "/h")) "/a").stack :=
    ReachableFrom.push _ "/a" ReachableFrom.refl
  have h3 := ReachableFrom.pop _ "/a" h2 (by decide) (by decide)
  exact base_layers_preserved fsRootOnly "/r" (some "/h") _ h3

/-- Witness for C6: probing a configuration-less directory twice under a
concrete stack, and re-pushing a concrete cached positive entry. -/
theorem pushIfExists_cache_spec_witness :
    (PushIfExists fsRootOnly (NewConfigStack fsRootOnly "/r" (some "/h")) "/a").pushed = false
    ∧ (PushIfExists fsRootOnly (NewConfigStack fsRootOnly "/r" (some "/h")) "/a").diskProbes = 1
    ∧ (PushIfExists fsRootOnly
        (PushIfExists fsRootOnly (NewConfigStack fsRootOnly "/r" (some "/h")) "/a").stack
        "/a").diskProbes = 0
    ∧ (PushIfExists fsRootOnly
        (⟨[], [("/b", some zeroConfig)], "/r", "/h"⟩ : ConfigStack) "/b").pushed = true := by
  have h1 := pushIfExists_cache_spec fsRootOnly
    (NewConfigStack fsRootOnly "/r" (some "/h")) "/a" (by decide) (by decide)
  have h2 := pushIfExists_cache_spec fsRootOnly
    (⟨[], [("/b", some zeroConfig)], "/r", "/h"⟩ : ConfigStack) "/b" (by decide) (by decide)
  obtain ⟨ha, -⟩ := h1
  obtain ⟨-, hb⟩ := h2
  have ha' := ha (by decide) (by decide)
  have hb' := hb zeroConfig (by decide)
  exact ⟨ha'.1, ha'.2.1, ha'.2.2.2.2.2.1, hb'.1⟩

end Clip4llm
